import Mathlib

/-!
Verification of the image-processing core (`src/main.rs`) against its
natural-language specification.

Modelling conventions (shallow embedding):
* A Rust `u8` channel value is a `Nat`; every operation of the code clamps its
  result into `[0, 255]`, which the embedding reproduces with `clamp255`.
* Rust `f32` arithmetic on channel values and kernel weights is modelled by
  exact rational arithmetic (`ℚ`).  All concrete inputs used in theorems below
  keep every intermediate value exactly representable (or far from any rounding
  boundary), so the rational model agrees with `f32` there.  The Rust cast
  `as i32` from `f32` truncates toward zero and saturates at the `i32` bounds;
  `f32toI32` reproduces both.
* An `ImageBuffer` is a width, a height and a pixel function; `get_pixel` on an
  out-of-range coordinate panics in Rust, which the embedding models by an
  `Option` result (a `none` is a panic, never an error value: the Rust
  functions return plain `ImageBuffer`s and have no error channel).
-/

/-- A pixel: the four `u8` channels of `image::Rgba<u8>`. -/
structure Pixel where
  r : Nat
  g : Nat
  b : Nat
  a : Nat
deriving DecidableEq, Repr

/-- Truncation of a rational toward zero, the rounding used by Rust's
`as i32` cast from `f32`. -/
def truncQ (q : ℚ) : Int :=
  if q < 0 then ⌈q⌉ else ⌊q⌋

/-- Saturation of the `f32 → i32` cast at the `i32` bounds. -/
def i32clamp (v : Int) : Int :=
  min 2147483647 (max (-2147483648) v)

/-- Rust `(x : f32) as i32`: truncate toward zero, saturating. -/
def f32toI32 (q : ℚ) : Int :=
  i32clamp (truncQ q)

/-- `cmp::min(255, cmp::max(0, c)) as u8`, the clamp used throughout the code. -/
def clamp255 (v : Int) : Nat :=
  (min 255 (max 0 v)).toNat

/-- `safe_add` (main.rs:339): add in `i32` space, clamp back to `u8`. -/
def safe_add (a : Nat) (b : Int) : Nat :=
  clamp255 ((a : Int) + b)

/-- `safe_mult` (main.rs:354): multiply as `f32`, cast to `i32`, clamp to `u8`. -/
def safe_mult (a : Nat) (b : ℚ) : Nat :=
  clamp255 (f32toI32 ((a : ℚ) * b))

/-- `pixel_add` (main.rs:298): channel-wise `safe_add`; alpha from `pixel_1`. -/
def pixel_add (p1 p2 : Pixel) : Pixel :=
  ⟨safe_add p1.r (p2.r : Int), safe_add p1.g (p2.g : Int),
   safe_add p1.b (p2.b : Int), p1.a⟩

/-- `pixel_sub` (main.rs:289): channel-wise `safe_add` of the negation; alpha
from `pixel_1`. -/
def pixel_sub (p1 p2 : Pixel) : Pixel :=
  ⟨safe_add p1.r (-(p2.r : Int)), safe_add p1.g (-(p2.g : Int)),
   safe_add p1.b (-(p2.b : Int)), p1.a⟩

/-- `pixel_scale` (main.rs:327): channel-wise `safe_mult`; alpha copied. -/
def pixel_scale (p : Pixel) (v : ℚ) : Pixel :=
  ⟨safe_mult p.r v, safe_mult p.g v, safe_mult p.b v, p.a⟩

/-- An `ImageBuffer`: dimensions plus the pixel at each in-range coordinate. -/
structure Image where
  width : Nat
  height : Nat
  pix : Nat → Nat → Pixel

/-- The per-axis border clamp `cmp::min(limit - 1, cmp::max(0, v))` used by
both `apply_matrix` (main.rs:137-138) and `median_filter` (main.rs:179-180). -/
def clampCoord (limit : Nat) (v : Int) : Int :=
  min ((limit : Int) - 1) (max 0 v)

/-- Edge-clamped sampling: `input.get_pixel` after clamping both coordinates. -/
def samplePixel (img : Image) (x y : Int) : Pixel :=
  img.pix (clampCoord img.width x).toNat (clampCoord img.height y).toNat

/-- An `ndarray::Array2<f32>` kernel: `rows × cols`, indexed `w i j` like
`matrix[[i, j]]`. -/
structure Kernel where
  rows : Nat
  cols : Nat
  w : Nat → Nat → ℚ

/-- Build a kernel from a row-major list of rows, as the `array![...]` macro
does; the shape is (number of rows, length of a row). -/
def kernelOfRows (rs : List (List ℚ)) : Kernel :=
  { rows := rs.length,
    cols := ((rs.headD []).length),
    w := fun i j => ((rs.getD i []).getD j 0) }

/-- Sum of all kernel weights (used to state the spec's weight-sum property). -/
def kernelWeightSum (k : Kernel) : ℚ :=
  ∑ i ∈ Finset.range k.rows, ∑ j ∈ Finset.range k.cols, k.w i j

/-- One term of the convolution sum (main.rs:143): sample at offset `(i, j)`
(the row index offsets `x`, the column index offsets `y`), multiply the channel
by the weight as `f32`, truncate to `i32`. -/
def convTerm (img : Image) (k : Kernel) (x y i j : Nat) (chan : Pixel → Nat) : Int :=
  f32toI32 ((chan (samplePixel img ((x : Int) + (i : Int)) ((y : Int) + (j : Int))) : ℚ) * k.w i j)

/-- The per-channel accumulated sum of `apply_matrix` (main.rs:149-153):
integer accumulation of the per-term truncated products. -/
def convChannel (img : Image) (k : Kernel) (x y : Nat) (chan : Pixel → Nat) : Int :=
  ∑ i ∈ Finset.range k.rows, ∑ j ∈ Finset.range k.cols, convTerm img k x y i j chan

/-- `apply_matrix` (main.rs:119-163): per output pixel, clamp each channel sum
to `[0, 255]` and set alpha to the constant 255. -/
def apply_matrix (img : Image) (k : Kernel) : Image :=
  { width := img.width, height := img.height,
    pix := fun x y =>
      { r := clamp255 (convChannel img k x y Pixel.r),
        g := clamp255 (convChannel img k x y Pixel.g),
        b := clamp255 (convChannel img k x y Pixel.b),
        a := 255 } }

/-- Every `(x, y)` of the first image must be in range for the second, or
`input_2.get_pixel(x, y)` panics: the guard for the binary image operations. -/
def dimsOk (a b : Image) : Prop :=
  ∀ x ∈ Finset.range a.width, ∀ y ∈ Finset.range a.height, x < b.width ∧ y < b.height

instance (a b : Image) : Decidable (dimsOk a b) :=
  inferInstanceAs (Decidable (∀ x ∈ Finset.range a.width, ∀ y ∈ Finset.range a.height,
    x < b.width ∧ y < b.height))

/-- Common shape of the binary image operations (main.rs:205-245): the output
takes the first image's dimensions and combines corresponding pixels; a panic
on `input_2.get_pixel` is modelled by `none`. -/
def image_map2 (f : Pixel → Pixel → Pixel) (a b : Image) : Option Image :=
  if dimsOk a b then
    some { width := a.width, height := a.height,
           pix := fun x y => f (a.pix x y) (b.pix x y) }
  else none

/-- `image_add` (main.rs:233-245). -/
def image_add (a b : Image) : Option Image :=
  image_map2 pixel_add a b

/-- `image_sub` (main.rs:219-231). -/
def image_sub (a b : Image) : Option Image :=
  image_map2 pixel_sub a b

/-- `linear_blend` (main.rs:205-217): per pixel,
`pixel_add (pixel_scale p1 (1 - value)) (pixel_scale p2 value)`. -/
def linear_blend (a b : Image) (value : ℚ) : Option Image :=
  image_map2 (fun p1 p2 => pixel_add (pixel_scale p1 (1 - value)) (pixel_scale p2 value)) a b

/-- `adjust_contrast` (main.rs:277-287): `pixel_scale` at every pixel.  Never
called by the rest of the code. -/
def adjust_contrast (img : Image) (value : ℚ) : Image :=
  { width := img.width, height := img.height,
    pix := fun x y => pixel_scale (img.pix x y) value }

/-- `median` (main.rs:373-377): `numbers[numbers.len() / 2]`; the out-of-range
panic on an empty list is modelled by `none`. -/
def median (numbers : List Nat) : Option Nat :=
  numbers[numbers.length / 2]?

/-- The integer range `a..b` of a Rust `for` loop (empty when `b ≤ a`). -/
def rangeInt (a b : Int) : List Int :=
  (List.range (b - a).toNat).map (fun n => a + (n : Int))

/-- One output pixel of `median_filter` (main.rs:169-200): gather the
edge-clamped square neighborhood `(-window)..(window+1)` in both axes, sort
each channel's samples, take each sorted list's `median`, and copy alpha from
the center pixel.  `none` models the panic of `median` on an empty list. -/
def medianFilterPixel (img : Image) (window : Int) (x y : Nat) : Option Pixel :=
  let offs := rangeInt (-window) (window + 1)
  let samples := (offs.map (fun i => offs.map (fun j =>
      samplePixel img ((x : Int) + i) ((y : Int) + j)))).flatten
  match median (List.insertionSort (· ≤ ·) (samples.map Pixel.r)),
        median (List.insertionSort (· ≤ ·) (samples.map Pixel.g)),
        median (List.insertionSort (· ≤ ·) (samples.map Pixel.b)) with
  | some rm, some gm, some bm => some ⟨rm, gm, bm, (img.pix x y).a⟩
  | _, _, _ => none

/-- `median_filter` (main.rs:165-203): every output pixel must be computable,
otherwise the whole call panics (`none`). -/
def median_filter (img : Image) (window : Int) : Option Image :=
  if ∀ x ∈ Finset.range img.width, ∀ y ∈ Finset.range img.height,
      (medianFilterPixel img window x y).isSome then
    some { width := img.width, height := img.height,
           pix := fun x y => (medianFilterPixel img window x y).getD ⟨0, 0, 0, 0⟩ }
  else none

/-- The 3×3 bilinear kernel of `bilinear_filter` (main.rs:84-88). -/
def bilinearKer : Kernel :=
  kernelOfRows [[1/16, 2/16, 1/16], [2/16, 4/16, 2/16], [1/16, 2/16, 1/16]]

/-- `bilinear_filter` (main.rs:83-91). -/
def bilinear_filter (img : Image) : Image :=
  apply_matrix img bilinearKer

/-- The `[[-1, 1]]` kernel of `x_grad` (main.rs:47-49). -/
def xGradKer : Kernel :=
  kernelOfRows [[-1, 1]]

/-- `x_grad` (main.rs:46-52). -/
def x_grad (img : Image) : Image :=
  apply_matrix img xGradKer

/-- Model of the external `image::imageops::contrast` function that the code
imports (main.rs:4) and calls inside `sharpen` (main.rs:78): with
`percent = ((100 + c) / 100)^2`, each channel value `e` (alpha included) maps
to `((e/255 - 0.5) * percent + 0.5) * 255`, clamped to `[0, 255]` and cast to
`u8` by truncation.  Rational arithmetic stands in for `f32`; the concrete
evaluations below stay far from every rounding boundary. -/
def contrastChannel (c : ℚ) (e : Nat) : Nat :=
  let percent : ℚ := ((100 + c) / 100) ^ 2
  let d : ℚ := (((e : ℚ) / 255 - 1/2) * percent + 1/2) * 255
  (truncQ (min 255 (max 0 d))).toNat

/-- The external `image::imageops::contrast` applied to a whole image: the
channel curve is applied to all four channels, alpha included. -/
def imageops_contrast (img : Image) (c : ℚ) : Image :=
  { width := img.width, height := img.height,
    pix := fun x y =>
      ⟨contrastChannel c (img.pix x y).r, contrastChannel c (img.pix x y).g,
       contrastChannel c (img.pix x y).b, contrastChannel c (img.pix x y).a⟩ }

/-- `sharpen` (main.rs:74-81) exactly as written: the detail image is passed to
the imported `image::imageops::contrast` (the `contrast` in scope at
main.rs:78), not to the local `adjust_contrast`. -/
def sharpen (img : Image) (value : ℚ) : Option Image :=
  (image_sub img (bilinear_filter img)).bind (fun detail =>
    image_add img (imageops_contrast detail value))

/-- The sharpen the spec describes (spec §4.4): the detail image amplified by
`adjust_contrast`, i.e. channel-wise `safe_mult` by `value`, then added back. -/
def sharpen_claimed (img : Image) (value : ℚ) : Option Image :=
  (image_sub img (bilinear_filter img)).bind (fun detail =>
    image_add img (adjust_contrast detail value))

/-- All R, G, B values of a pixel are valid `u8` values. -/
def PixelInRange (p : Pixel) : Prop :=
  p.r ≤ 255 ∧ p.g ≤ 255 ∧ p.b ≤ 255

instance (p : Pixel) : Decidable (PixelInRange p) :=
  inferInstanceAs (Decidable (p.r ≤ 255 ∧ p.g ≤ 255 ∧ p.b ≤ 255))

/-- Every in-range pixel of the image has valid `u8` R, G, B values. -/
def ImageInRange (img : Image) : Prop :=
  ∀ x ∈ Finset.range img.width, ∀ y ∈ Finset.range img.height, PixelInRange (img.pix x y)

instance (img : Image) : Decidable (ImageInRange img) :=
  inferInstanceAs (Decidable (∀ x ∈ Finset.range img.width, ∀ y ∈ Finset.range img.height,
    PixelInRange (img.pix x y)))

/-- The spec's 2×2 example image: row-major gray values 10, 20, 30, 40 with
alpha 0 everywhere. -/
def C4img : Image :=
  ⟨2, 2, fun x y => ⟨10 + 10 * (x + 2 * y), 10 + 10 * (x + 2 * y), 10 + 10 * (x + 2 * y), 0⟩⟩

/-- A 1×1 all-ones image and the 2×1 kernel with both weights 1/2: the kernel's
weight-sum is 1, so the claim predicts channel value 1·1 = 1, but each per-term
product 1·(1/2) truncates to 0 and the code produces 0.  All values involved
are exactly representable in `f32`. -/
def C1img : Image := ⟨1, 1, fun _ _ => ⟨1, 1, 1, 255⟩⟩

def C1ker : Kernel := kernelOfRows [[1/2], [1/2]]

def C1wimg : Image := ⟨1, 1, fun _ _ => ⟨200, 200, 200, 7⟩⟩

/-- A 1×1 image used to exercise `median_filter` with a negative window. -/
def C6img : Image := ⟨1, 1, fun _ _ => ⟨5, 5, 5, 5⟩⟩

def C7small : Image := ⟨1, 1, fun _ _ => ⟨1, 2, 3, 4⟩⟩

def C7big : Image := ⟨2, 2, fun _ _ => ⟨5, 6, 7, 8⟩⟩

def C7eq1 : Image := ⟨2, 2, fun x y => ⟨x, y, 0, 9⟩⟩

def C7eq2 : Image := ⟨2, 2, fun x y => ⟨y, x, 1, 3⟩⟩

def C8img : Image := ⟨2, 2, fun x y => ⟨40 + x, 50 + y, 60 + x + y, 70 + 2 * x⟩⟩

def C10a : Image := ⟨1, 1, fun _ _ => ⟨100, 110, 120, 30⟩⟩

def C10b : Image := ⟨1, 1, fun _ _ => ⟨5, 6, 7, 200⟩⟩

def C3a : Image := ⟨1, 1, fun _ _ => ⟨0, 0, 0, 7⟩⟩

def C3b : Image := ⟨1, 1, fun _ _ => ⟨0, 0, 0, 9⟩⟩

def C3wa : Image := ⟨1, 1, fun _ _ => ⟨10, 20, 30, 40⟩⟩

def C3wb : Image := ⟨1, 1, fun _ _ => ⟨200, 210, 220, 50⟩⟩

def C2img : Image := ⟨1, 1, fun _ _ => ⟨100, 100, 100, 255⟩⟩

/-- C9: the four saturating-arithmetic equalities of the spec hold:
`safe_add 250 20 = 255`, `safe_add 5 (-20) = 0`, `safe_mult 100 3 = 255`,
`safe_mult 10 (-1) = 0`. -/
theorem C9_saturating_arithmetic :
    safe_add 250 20 = 255 ∧ safe_add 5 (-20) = 0 ∧
    safe_mult 100 3 = 255 ∧ safe_mult 10 (-1) = 0 := by
  with_unfolding_all decide

/-- For a 1×1 image every edge-clamped sample is the single pixel `(0, 0)`. -/
theorem samplePixel_dims_one (img : Image) (hw : img.width = 1) (hh : img.height = 1)
    (x y : Int) : samplePixel img x y = img.pix 0 0 := by
  unfold samplePixel clampCoord
  rw [hw, hh]
  have h1 : (min (((1 : Nat) : Int) - 1) (max 0 x)).toNat = 0 := by omega
  have h2 : (min (((1 : Nat) : Int) - 1) (max 0 y)).toNat = 0 := by omega
  rw [h1, h2]

/-- Sampling at an in-range coordinate is a plain pixel read: the border clamp
does nothing. -/
theorem samplePixel_in_range (img : Image) (x y : Nat) (u v : Int)
    (hu : u = (x : Int)) (hv : v = (y : Int))
    (hx : x < img.width) (hy : y < img.height) :
    samplePixel img u v = img.pix x y := by
  subst hu hv
  unfold samplePixel clampCoord
  have h1 : (min ((img.width : Int) - 1) (max 0 (x : Int))).toNat = x := by omega
  have h2 : (min ((img.height : Int) - 1) (max 0 (y : Int))).toNat = y := by omega
  rw [h1, h2]

/-- C4: for every input image and kernel, every pixel produced by
`apply_matrix` has alpha exactly 255, regardless of the input's alpha. -/
theorem C4_alpha_reset (img : Image) (k : Kernel) (x y : Nat)
    (_hx : x < img.width) (_hy : y < img.height) :
    ((apply_matrix img k).pix x y).a = 255 := rfl

theorem C4_alpha_reset_witness :
    0 < C4img.width ∧ 0 < C4img.height ∧ ((apply_matrix C4img xGradKer).pix 0 0).a = 255 :=
  ⟨by decide, by decide, C4_alpha_reset C4img xGradKer 0 0 (by decide) (by decide)⟩

/-- C1 (amended): applying any kernel to a 1×1 image gives a 1×1 image whose
R, G, B values are the clamped sum, over all kernel cells, of the per-term
truncated products of the single pixel's channel value with each weight (every
sample clamps back to the single pixel).  This equals the channel value scaled
by the kernel's weight-sum only when each per-term product truncates
losslessly, not in general. -/
theorem C1_amended_one_pixel_conv (img : Image) (k : Kernel)
    (hw : img.width = 1) (hh : img.height = 1) :
    (apply_matrix img k).width = 1 ∧ (apply_matrix img k).height = 1 ∧
    ∀ x y : Nat, (apply_matrix img k).pix x y =
      { r := clamp255 (∑ i ∈ Finset.range k.rows, ∑ j ∈ Finset.range k.cols,
               f32toI32 (((img.pix 0 0).r : ℚ) * k.w i j)),
        g := clamp255 (∑ i ∈ Finset.range k.rows, ∑ j ∈ Finset.range k.cols,
               f32toI32 (((img.pix 0 0).g : ℚ) * k.w i j)),
        b := clamp255 (∑ i ∈ Finset.range k.rows, ∑ j ∈ Finset.range k.cols,
               f32toI32 (((img.pix 0 0).b : ℚ) * k.w i j)),
        a := 255 } := by
  refine ⟨hw, hh, fun x y => ?_⟩
  have hconv : ∀ chan : Pixel → Nat, convChannel img k x y chan =
      ∑ i ∈ Finset.range k.rows, ∑ j ∈ Finset.range k.cols,
        f32toI32 ((chan (img.pix 0 0) : ℚ) * k.w i j) := by
    intro chan
    unfold convChannel convTerm
    refine Finset.sum_congr rfl (fun i _ => Finset.sum_congr rfl (fun j _ => ?_))
    rw [samplePixel_dims_one img hw hh]
  show Pixel.mk _ _ _ _ = _
  rw [hconv Pixel.r, hconv Pixel.g, hconv Pixel.b]

/-- C1 counterexample: on `C1img` and `C1ker` the code yields channel value 0
while the claimed weight-sum scaling yields 1. -/
theorem C1_counterexample :
    ((apply_matrix C1img C1ker).pix 0 0).r = 0 ∧
    clamp255 (f32toI32 (((C1img.pix 0 0).r : ℚ) * kernelWeightSum C1ker)) = 1 ∧
    ((apply_matrix C1img C1ker).pix 0 0).r ≠
      clamp255 (f32toI32 (((C1img.pix 0 0).r : ℚ) * kernelWeightSum C1ker)) := by
  with_unfolding_all decide

theorem C1_amended_witness :
    ((apply_matrix C1wimg xGradKer).pix 0 0).r = 0 := by
  have h := (C1_amended_one_pixel_conv C1wimg xGradKer rfl rfl).2.2 0 0
  rw [h]
  with_unfolding_all decide

/-- C5 counterexample: `[10, 20]` is sorted and even-sized; its two middle
elements are 10 and 20, whose lower is 10, yet `median` returns the element at
index `2 / 2 = 1`, namely 20 — the upper, not the lower, of the two. -/
theorem C5_counterexample :
    median [10, 20] = some 20 ∧ median [10, 20] ≠ some 10 := by
  decide

/-- C5 (amended): for every non-empty list, `median` returns the element at
index `⌊count / 2⌋`; on a sorted even-sized list this is the upper of the two
middle elements (upper median), not the lower. -/
theorem C5_amended_upper_median (l : List Nat) (hne : l ≠ []) :
    (∃ v, median l = some v ∧ l[l.length / 2]? = some v) ∧
    (∀ m : Nat, l.length = 2 * m → l.Sorted (· ≤ ·) →
      ∃ a b, l[m - 1]? = some a ∧ l[m]? = some b ∧ a ≤ b ∧ median l = some b) := by
  have hpos : 0 < l.length := List.length_pos.mpr hne
  constructor
  · have hlt : l.length / 2 < l.length := Nat.div_lt_self hpos (by omega)
    have h := List.getElem?_eq_getElem hlt
    exact ⟨_, h, h⟩
  · intro m hm hs
    have hm1 : 1 ≤ m := by omega
    have hlt2 : m < l.length := by omega
    have hlt1 : m - 1 < l.length := by omega
    have hdiv : l.length / 2 = m := by omega
    have e1 := List.getElem?_eq_getElem hlt1
    have e2 := List.getElem?_eq_getElem hlt2
    have hab : l.get ⟨m - 1, hlt1⟩ ≤ l.get ⟨m, hlt2⟩ :=
      hs.rel_get_of_lt (by exact Fin.mk_lt_mk.mpr (by omega))
    refine ⟨l.get ⟨m - 1, hlt1⟩, l.get ⟨m, hlt2⟩, ?_, ?_, hab, ?_⟩
    · rw [e1, List.get_eq_getElem]
    · rw [e2, List.get_eq_getElem]
    · show l[l.length / 2]? = _
      rw [hdiv, e2, List.get_eq_getElem]

theorem C5_amended_witness :
    ∃ a b, ([10, 20] : List Nat)[0]? = some a ∧ ([10, 20] : List Nat)[1]? = some b ∧
      a ≤ b ∧ median [10, 20] = some b := by
  have h := (C5_amended_upper_median [10, 20] (by decide)).2 1 rfl (by decide)
  exact h

/-- C6 counterexample: with a negative window the neighborhood loop is empty,
so `median` indexes an empty vector — a panic (`none`), not any error result;
the function's Rust type `ImageBuffer` has no error channel at all. -/
theorem C6_counterexample :
    (median_filter C6img (-1)).isSome = false ∧ medianFilterPixel C6img (-1) 0 0 = none ∧
    median ([] : List Nat) = none := by
  decide

/-- C6 (amended): for every non-empty image, calling `median_filter` with a
negative window panics (out-of-bounds index in `median` on the empty sample
list) rather than reporting an error result. -/
theorem C6_amended_negative_window_panics (img : Image) (window : Int)
    (hneg : window < 0) (hw : 0 < img.width) (hh : 0 < img.height) :
    median_filter img window = none := by
  have hoffs : rangeInt (-window) (window + 1) = [] := by
    unfold rangeInt
    have h0 : (window + 1 - -window).toNat = 0 := by omega
    rw [h0]
    rfl
  have hpix : medianFilterPixel img window 0 0 = none := by
    simp only [medianFilterPixel, hoffs, List.map_nil, List.flatten_nil]
    rfl
  have hcond : ¬ (∀ x ∈ Finset.range img.width, ∀ y ∈ Finset.range img.height,
      (medianFilterPixel img window x y).isSome) := by
    intro hall
    have h := hall 0 (Finset.mem_range.mpr hw) 0 (Finset.mem_range.mpr hh)
    rw [hpix] at h
    simp at h
  unfold median_filter
  rw [if_neg hcond]

theorem C6_amended_witness : median_filter C6img (-2) = none :=
  C6_amended_negative_window_panics C6img (-2) (by decide) (by decide) (by decide)

/-- C7 counterexample: a 1×1 first image and a 2×2 second image differ in both
dimensions, yet `image_add` and `image_sub` succeed (only coordinates of the
first image are read from the second, and they are all in range). -/
theorem C7_counterexample :
    C7small.width ≠ C7big.width ∧ C7small.height ≠ C7big.height ∧
    (image_add C7small C7big).isSome ∧ (image_sub C7small C7big).isSome := by
  decide

/-- C7 (amended): `image_add` and `image_sub` succeed whenever the second
image is at least as large as the first in both axes (in particular for equal
dimensions), and error out of bounds exactly when the first image is non-empty
and the second is strictly smaller in some axis. -/
theorem C7_amended_second_image_bounds (a b : Image) :
    ((a.width ≤ b.width ∧ a.height ≤ b.height) →
      (image_add a b).isSome ∧ (image_sub a b).isSome) ∧
    ((0 < a.width ∧ 0 < a.height ∧ (b.width < a.width ∨ b.height < a.height)) →
      image_add a b = none ∧ image_sub a b = none) := by
  constructor
  · rintro ⟨h1, h2⟩
    have hok : dimsOk a b := by
      intro x hx y hy
      rw [Finset.mem_range] at hx hy
      exact ⟨lt_of_lt_of_le hx h1, lt_of_lt_of_le hy h2⟩
    refine ⟨?_, ?_⟩ <;> simp [image_add, image_sub, image_map2, hok]
  · rintro ⟨h1, h2, h3⟩
    have hnot : ¬ dimsOk a b := by
      intro hok
      rcases h3 with h3 | h3
      · exact absurd (hok b.width (Finset.mem_range.mpr h3) 0 (Finset.mem_range.mpr h2)).1
          (lt_irrefl _)
      · exact absurd (hok 0 (Finset.mem_range.mpr h1) b.height (Finset.mem_range.mpr h3)).2
          (lt_irrefl _)
    refine ⟨?_, ?_⟩ <;> simp [image_add, image_sub, image_map2, hnot]

theorem C7_amended_witness :
    ((image_add C7eq1 C7eq2).isSome ∧ (image_sub C7eq1 C7eq2).isSome) ∧
    (image_add C7eq1 C7small = none ∧ image_sub C7eq1 C7small = none) :=
  ⟨(C7_amended_second_image_bounds C7eq1 C7eq2).1 (by decide),
   (C7_amended_second_image_bounds C7eq1 C7small).2 (by decide)⟩

/-- C8: `median_filter` with window 0 is the identity: it succeeds and every
in-range output pixel equals the corresponding input pixel in all four
channels (the neighborhood is the single pixel itself). -/
theorem C8_median_filter_identity (img : Image) :
    ∃ out, median_filter img 0 = some out ∧ out.width = img.width ∧
      out.height = img.height ∧
      ∀ x y, x < img.width → y < img.height → out.pix x y = img.pix x y := by
  have hoffs : rangeInt (-(0 : Int)) ((0 : Int) + 1) = [(0 : Int)] := by decide
  have hpix : ∀ x y, x < img.width → y < img.height →
      medianFilterPixel img 0 x y = some (img.pix x y) := by
    intro x y hx hy
    simp only [medianFilterPixel, hoffs, List.map_cons, List.map_nil, List.flatten,
      List.append_nil]
    rw [samplePixel_in_range img x y _ _ (by push_cast; ring) (by ring) hx hy]
    with_unfolding_all rfl
  have hcond : ∀ x ∈ Finset.range img.width, ∀ y ∈ Finset.range img.height,
      (medianFilterPixel img 0 x y).isSome := by
    intro x hx y hy
    rw [hpix x y (Finset.mem_range.mp hx) (Finset.mem_range.mp hy)]
    rfl
  refine ⟨{ width := img.width, height := img.height,
            pix := fun x y => (medianFilterPixel img 0 x y).getD ⟨0, 0, 0, 0⟩ }, ?_, rfl, rfl, ?_⟩
  · unfold median_filter
    rw [if_pos hcond]
  · intro x y hx hy
    show (medianFilterPixel img 0 x y).getD ⟨0, 0, 0, 0⟩ = img.pix x y
    rw [hpix x y hx hy]
    rfl

theorem C8_median_filter_identity_witness :
    ∃ out, median_filter C8img 0 = some out ∧ out.pix 1 1 = C8img.pix 1 1 := by
  obtain ⟨out, h1, _, _, h4⟩ := C8_median_filter_identity C8img
  exact ⟨out, h1, h4 1 1 (by decide) (by decide)⟩

/-- Scaling by the factor 0 sends every channel value to 0. -/
theorem safe_mult_zero (a : Nat) : safe_mult a 0 = 0 := by
  unfold safe_mult
  rw [mul_zero]
  with_unfolding_all decide

/-- Scaling a valid `u8` value by the factor 1 is lossless. -/
theorem safe_mult_one (a : Nat) (h : a ≤ 255) : safe_mult a 1 = a := by
  unfold safe_mult
  rw [mul_one]
  unfold f32toI32 truncQ
  rw [if_neg (not_lt.mpr (by positivity))]
  rw [Int.floor_natCast]
  unfold i32clamp clamp255
  omega

/-- Adding 0 to a valid `u8` value is lossless. -/
theorem safe_add_zero (a : Nat) (h : a ≤ 255) : safe_add a 0 = a := by
  unfold safe_add clamp255
  omega

/-- Adding a valid `u8` value to 0 is lossless. -/
theorem safe_add_zero_left (c : Nat) (h : c ≤ 255) : safe_add 0 (c : Int) = c := by
  unfold safe_add clamp255
  omega

/-- C10: for equal-dimension images, every pixel of `linear_blend a b t` takes
its alpha from `a`'s corresponding pixel, whatever `b`'s alphas and `t` are. -/
theorem C10_blend_alpha_from_first (a b : Image) (t : ℚ)
    (hw : a.width = b.width) (hh : a.height = b.height) :
    ∃ out, linear_blend a b t = some out ∧ out.width = a.width ∧ out.height = a.height ∧
      ∀ x y, x < a.width → y < a.height → (out.pix x y).a = (a.pix x y).a := by
  have hok : dimsOk a b := by
    intro x hx y hy
    rw [Finset.mem_range] at hx hy
    exact ⟨hw ▸ hx, hh ▸ hy⟩
  refine ⟨{ width := a.width, height := a.height,
            pix := fun x y => pixel_add (pixel_scale (a.pix x y) (1 - t))
              (pixel_scale (b.pix x y) t) }, ?_, rfl, rfl, ?_⟩
  · unfold linear_blend image_map2
    rw [if_pos hok]
  · intro x y hx hy
    rfl

theorem C10_blend_alpha_witness :
    ∃ out, linear_blend C10a C10b (1/2) = some out ∧ (out.pix 0 0).a = 30 := by
  obtain ⟨out, h1, _, _, h4⟩ := C10_blend_alpha_from_first C10a C10b (1/2) rfl rfl
  exact ⟨out, h1, (h4 0 0 (by decide) (by decide)).trans rfl⟩

/-- C3 (amended): for equal-dimension in-range images, `linear_blend a b 0`
equals `a` on all four channels of every pixel, and `linear_blend a b 1`
equals `b` on the R, G, B channels of every pixel while the alpha channel is
taken from `a` (so the `t = 1` endpoint reproduces `b` only where the alphas
already agree). -/
theorem C3_amended_blend_endpoints (a b : Image)
    (hw : a.width = b.width) (hh : a.height = b.height)
    (ha : ImageInRange a) (hb : ImageInRange b) :
    (∃ out0, linear_blend a b 0 = some out0 ∧
      ∀ x y, x < a.width → y < a.height → out0.pix x y = a.pix x y) ∧
    (∃ out1, linear_blend a b 1 = some out1 ∧
      ∀ x y, x < a.width → y < a.height →
        (out1.pix x y).r = (b.pix x y).r ∧ (out1.pix x y).g = (b.pix x y).g ∧
        (out1.pix x y).b = (b.pix x y).b ∧ (out1.pix x y).a = (a.pix x y).a) := by
  have hok : dimsOk a b := by
    intro x hx y hy
    rw [Finset.mem_range] at hx hy
    exact ⟨hw ▸ hx, hh ▸ hy⟩
  constructor
  · refine ⟨{ width := a.width, height := a.height,
              pix := fun x y => pixel_add (pixel_scale (a.pix x y) (1 - 0))
                (pixel_scale (b.pix x y) 0) }, ?_, ?_⟩
    · unfold linear_blend image_map2
      rw [if_pos hok]
    · intro x y hx hy
      obtain ⟨har, hag, habl⟩ := ha x (Finset.mem_range.mpr hx) y (Finset.mem_range.mpr hy)
      show pixel_add (pixel_scale (a.pix x y) (1 - 0)) (pixel_scale (b.pix x y) 0) = a.pix x y
      rw [show (1 - 0 : ℚ) = 1 by norm_num]
      unfold pixel_add pixel_scale
      simp only [safe_mult_zero, safe_mult_one _ har, safe_mult_one _ hag,
        safe_mult_one _ habl, Nat.cast_zero, safe_add_zero _ har, safe_add_zero _ hag,
        safe_add_zero _ habl]
  · refine ⟨{ width := a.width, height := a.height,
              pix := fun x y => pixel_add (pixel_scale (a.pix x y) (1 - 1))
                (pixel_scale (b.pix x y) 1) }, ?_, ?_⟩
    · unfold linear_blend image_map2
      rw [if_pos hok]
    · intro x y hx hy
      obtain ⟨hbr, hbg, hbbl⟩ := hb x (Finset.mem_range.mpr (hw ▸ hx))
        y (Finset.mem_range.mpr (hh ▸ hy))
      rw [show (1 - 1 : ℚ) = 0 by norm_num]
      unfold pixel_add pixel_scale
      simp only [safe_mult_zero, safe_mult_one _ hbr, safe_mult_one _ hbg,
        safe_mult_one _ hbbl]
      exact ⟨safe_add_zero_left _ hbr, safe_add_zero_left _ hbg,
        safe_add_zero_left _ hbbl, trivial⟩

/-- C3 counterexample: `C3a` and `C3b` are equal-dimension 1×1 images whose
pixels differ only in alpha (7 versus 9); `linear_blend C3a C3b 1.0` produces
alpha 7, so the `t = 1` endpoint does not equal `b` on all four channels. -/
theorem C3_counterexample :
    ((linear_blend C3a C3b 1).map (fun o => (o.pix 0 0).a)) = some 7 ∧
    (C3b.pix 0 0).a = 9 := by
  with_unfolding_all decide

theorem C3_amended_witness :
    ∃ out1, linear_blend C3wa C3wb 1 = some out1 ∧
      (out1.pix 0 0).r = 200 ∧ (out1.pix 0 0).a = 40 := by
  obtain ⟨-, h1⟩ := C3_amended_blend_endpoints C3wa C3wb rfl rfl (by decide) (by decide)
  obtain ⟨out1, he, hp⟩ := h1
  obtain ⟨hr, -, -, haa⟩ := hp 0 0 (by decide) (by decide)
  exact ⟨out1, he, hr.trans rfl, haa.trans rfl⟩

/-- C2: evaluation exposing the bug.  On the 1×1 image with pixel
(100, 100, 100, 255) and amount 10, the 3×3 blur gives 97, so the detail image
is (3, 3, 3, 255).  The code passes the detail to the imported
`image::imageops::contrast` (main.rs:4, main.rs:78), whose curve maps 3 to 0,
so `sharpen` returns (100, 100, 100, 255).  The claim (and the code's own doc
comment, "add specified multiple of detail", matching the otherwise-unused
local `adjust_contrast`) prescribes channel-wise `safe_mult` by the amount,
which gives detail (30, 30, 30, 255) and result (130, 130, 130, 255). -/
theorem C2_code_bug_eval :
    (sharpen C2img 10).map (fun o => o.pix 0 0) = some ⟨100, 100, 100, 255⟩ ∧
    (sharpen_claimed C2img 10).map (fun o => o.pix 0 0) = some ⟨130, 130, 130, 255⟩ := by
  with_unfolding_all decide
